import Mathlib

/-!
Verification of the metrics-lifecycle registries of the Mesos hierarchical
allocator (`src/master/allocator/mesos/metrics.cpp`).

The embedding models the two registries (`Metrics`, `FrameworkMetrics`) as
explicit states: the hashmaps become association lists, the process-global
metrics catalog becomes a finite set of registered metric names (the real
catalog is keyed by name, a duplicate `add` fails and is ignored, so a set is
the faithful model), and every `CHECK` failure becomes `none` (the process is
killed, there is no resulting state).  Pull gauges carry only their name; the
constant "guarantee" gauge additionally carries the scalar value captured at
`setQuota` time; push gauges carry name and stored value.
-/

namespace MesosAllocatorMetrics

/-! ## String facts used to separate metric names -/

theorem string_eq_data {a b : String} (h : a = b) : a.data = b.data := by
  rw [h]

theorem string_append_right_cancel {a b c : String} (h : a ++ c = b ++ c) :
    a = b := by
  apply String.ext
  have hd := string_eq_data h
  rw [String.data_append, String.data_append] at hd
  exact List.append_cancel_right hd

theorem string_append_left_cancel {a b c : String} (h : a ++ b = a ++ c) :
    b = c := by
  apply String.ext
  have hd := string_eq_data h
  rw [String.data_append, String.data_append] at hd
  exact List.append_cancel_left hd

/-- If the list `p.data` is not a prefix of `y.data` then no extension of `p`
equals `y`. -/
theorem append_ne_of_not_prefix {p y : String}
    (h : ¬ p.data <+: y.data) (x : String) : p ++ x ≠ y := by
  intro he
  apply h
  have hd := string_eq_data he
  rw [String.data_append] at hd
  exact ⟨x.data, hd⟩

/-- If `x ++ s = y ++ t` and `s` is no longer than `t`, then `s` is a suffix
of `t`. -/
theorem suffix_of_append_eq_append {α : Type} {x y s t : List α}
    (h : x ++ s = y ++ t) (hlen : s.length ≤ t.length) : s <:+ t := by
  have hs : s <:+ y ++ t := h ▸ List.suffix_append x s
  have ht : t <:+ y ++ t := List.suffix_append y t
  obtain ⟨u, hu⟩ := hs
  obtain ⟨v, hv⟩ := ht
  have hlen2 : u.length + s.length = v.length + t.length := by
    have := congrArg List.length (hu.trans hv.symm)
    simpa using this
  refine ⟨u.drop v.length, ?_⟩
  have huv : u ++ s = v ++ t := hu.trans hv.symm
  have hvu : v <+: u := by
    rcases List.prefix_or_prefix_of_prefix
      (⟨s, hu⟩ : u <+: y ++ t) (⟨t, hv⟩ : v <+: y ++ t) with hp | hp
    · exact hp.eq_of_length_le (by omega) ▸ List.prefix_refl u
    · exact hp
  obtain ⟨w, hw⟩ := hvu
  subst hw
  have : v ++ (w ++ s) = v ++ t := by simpa using huv
  have hws : w ++ s = t := List.append_cancel_left this
  rw [List.drop_left' rfl] at *
  exact hws

/-- Two strings with distinct literal suffixes (neither a suffix of the other
at the data level) are different, whatever they are appended to. -/
theorem append_ne_append_of_suffix {x y s t : String}
    (hlen : s.data.length ≤ t.data.length)
    (hst : ¬ s.data <:+ t.data) : x ++ s ≠ y ++ t := by
  intro he
  have hd := string_eq_data he
  rw [String.data_append, String.data_append] at hd
  exact hst (suffix_of_append_eq_append hd hlen)

/-! ## Association lists (the model of `hashmap`) -/

def alLookup {α : Type} : List (String × α) → String → Option α
  | [], _ => none
  | p :: l, k => if p.1 = k then some p.2 else alLookup l k

def alContains {α : Type} (l : List (String × α)) (k : String) : Bool :=
  (alLookup l k).isSome

def alErase {α : Type} : List (String × α) → String → List (String × α)
  | [], _ => []
  | p :: l, k => if p.1 = k then alErase l k else p :: alErase l k

/-- `hashmap::operator[]`-style insert-or-assign. -/
def alPut {α : Type} (l : List (String × α)) (k : String) (v : α) :
    List (String × α) :=
  (k, v) :: alErase l k

/-- In-place mutation of the entry at key `k` (`map.at(k) = v`). -/
def alUpdate {α : Type} (l : List (String × α)) (k : String) (f : α → α) :
    List (String × α) :=
  l.map (fun p => if p.1 = k then (p.1, f p.2) else p)

def alValues {α : Type} (l : List (String × α)) : List α := l.map Prod.snd

theorem alLookup_eq_none {α : Type} :
    ∀ {l : List (String × α)} {k : String}, alLookup l k = none →
      ∀ p ∈ l, p.1 ≠ k := by
  intro l
  induction l with
  | nil => intro k _ p hp; cases hp
  | cons q l ih =>
    intro k h p hp
    rw [List.mem_cons] at hp
    by_cases hq : q.1 = k
    · simp [alLookup, hq] at h
    · rcases hp with rfl | hp
      · exact hq
      · exact ih (by simpa [alLookup, hq] using h) p hp

theorem alContains_false_lookup {α : Type} {l : List (String × α)}
    {k : String} (h : alContains l k = false) : alLookup l k = none := by
  unfold alContains at h
  cases hl : alLookup l k with
  | none => rfl
  | some v => rw [hl] at h; simp at h

theorem alErase_of_not_contains {α : Type} :
    ∀ {l : List (String × α)} {k : String}, alContains l k = false →
      alErase l k = l := by
  intro l
  induction l with
  | nil => intro k _; rfl
  | cons q l ih =>
    intro k h
    have hn := alLookup_eq_none (alContains_false_lookup h)
    have hq : q.1 ≠ k := hn q (by simp)
    have hl : alContains l k = false := by
      have := alContains_false_lookup h
      unfold alContains
      simp [alLookup, hq] at this
      simp [this]
    simp [alErase, hq, ih hl]

theorem alUpdate_of_not_contains {α : Type} :
    ∀ {l : List (String × α)} {k : String} {f : α → α},
      alContains l k = false → alUpdate l k f = l := by
  intro l
  induction l with
  | nil => intro k f _; rfl
  | cons q l ih =>
    intro k f h
    have hn := alLookup_eq_none (alContains_false_lookup h)
    have hq : q.1 ≠ k := hn q (by simp)
    have hl : alContains l k = false := by
      have := alContains_false_lookup h
      unfold alContains
      simp [alLookup, hq] at this
      simp [this]
    simp [alUpdate, hq]
    have := ih (k := k) (f := f) hl
    simpa [alUpdate] using this

theorem alLookup_mem {α : Type} :
    ∀ {l : List (String × α)} {k : String} {v : α},
      alLookup l k = some v → (k, v) ∈ l := by
  intro l
  induction l with
  | nil => intro k v h; cases h
  | cons q l ih =>
    intro k v h
    rw [List.mem_cons]
    by_cases hq : q.1 = k
    · simp [alLookup, hq] at h
      left
      cases q
      simp_all
    · right
      exact ih (by simpa [alLookup, hq] using h)

theorem mem_alErase {α : Type} :
    ∀ {l : List (String × α)} {k : String} {p : String × α},
      p ∈ alErase l k ↔ p ∈ l ∧ p.1 ≠ k := by
  intro l
  induction l with
  | nil => intro k p; simp [alErase]
  | cons q l ih =>
    intro k p
    by_cases hq : q.1 = k
    · simp only [alErase, if_pos hq, ih, List.mem_cons]
      constructor
      · rintro ⟨hp, hne⟩; exact ⟨Or.inr hp, hne⟩
      · rintro ⟨hp | hp, hne⟩
        · subst hp; exact absurd hq hne
        · exact ⟨hp, hne⟩
    · simp only [alErase, if_neg hq, List.mem_cons, ih]
      constructor
      · rintro (rfl | ⟨hp, hne⟩)
        · exact ⟨Or.inl rfl, hq⟩
        · exact ⟨Or.inr hp, hne⟩
      · rintro ⟨rfl | hp, hne⟩
        · exact Or.inl rfl
        · exact Or.inr ⟨hp, hne⟩

theorem mem_of_alLookup_nodup {α : Type} :
    ∀ {l : List (String × α)} {k : String} {v : α},
      (l.map Prod.fst).Nodup → (k, v) ∈ l → alLookup l k = some v := by
  intro l
  induction l with
  | nil => intro k v _ h; cases h
  | cons q l ih =>
    intro k v hnd hm
    rw [List.map_cons, List.nodup_cons] at hnd
    rw [List.mem_cons] at hm
    rcases hm with rfl | hm
    · simp [alLookup]
    · have hq : q.1 ≠ k := by
        intro he
        exact hnd.1 (he ▸ (List.mem_map.mpr ⟨(k, v), hm, rfl⟩))
      simp [alLookup, hq, ih hnd.2 hm]

/-! ## The metrics catalog (`process::metrics`)

The process-global catalog maps names to metrics; `add` of an existing name
fails (the failure is ignored by the registries) and `remove` of a missing
name is a no-op failure, so the catalog is a finite set of names. -/

abbrev Catalog := Finset String

def metricsAdd (c : Catalog) (name : String) : Catalog := insert name c

def metricsRemove (c : Catalog) (name : String) : Catalog := c.erase name

def addAllF (c : Catalog) (names : List String) : Catalog :=
  names.foldl metricsAdd c

def removeAllF (c : Catalog) (names : List String) : Catalog :=
  names.foldl metricsRemove c

theorem addAllF_eq (names : List String) :
    ∀ c : Catalog, addAllF c names = c ∪ names.toFinset := by
  induction names with
  | nil => intro c; simp [addAllF]
  | cons n names ih =>
    intro c
    show addAllF (metricsAdd c n) names = _
    rw [ih]
    rw [List.toFinset_cons]
    ext m
    simp [metricsAdd]
    try tauto

theorem removeAllF_eq (names : List String) :
    ∀ c : Catalog, removeAllF c names = c \ names.toFinset := by
  induction names with
  | nil => intro c; simp [removeAllF]
  | cons n names ih =>
    intro c
    show removeAllF (metricsRemove c n) names = _
    rw [ih]
    rw [List.toFinset_cons, metricsRemove, Finset.erase_eq]
    ext m
    simp [not_or]
    tauto

theorem removeAllF_append (c : Catalog) (l₁ l₂ : List String) :
    removeAllF c (l₁ ++ l₂) = removeAllF (removeAllF c l₁) l₂ :=
  List.foldl_append _ _ _ _

/-! ## Domain data

`Resource` keeps exactly what `setQuota` reads from a protobuf resource: its
name, its value type and (for scalar resources) the scalar value.  Scalar
values are exact rationals, standing for the `double` that is only ever
stored and read back here. -/

inductive ValueType
  | SCALAR
  | RANGES
  | SET
  | TEXT
deriving DecidableEq, Repr

structure Resource where
  name : String
  type : ValueType
  scalarValue : Rat
deriving DecidableEq, Repr

structure QuotaInfo where
  guarantee : List Resource
deriving DecidableEq, Repr

structure Quota where
  info : QuotaInfo
deriving DecidableEq, Repr

/-- Read-only view of the allocator state that pull gauges query on read;
only the quota-allocated query is named here. -/
structure AllocatorState where
  quotaAllocated : String → String → Rat

/-- The constant guarantee gauge: a pull gauge whose producer is the closure
`[value]() \x7b return value; \x7d` capturing the scalar at `setQuota` time. -/
structure GuaranteeGauge where
  name : String
  value : Rat
deriving DecidableEq, Repr

/-- Reading the guarantee gauge returns the captured constant, whatever the
allocator state is at read time. -/
def GuaranteeGauge.read (g : GuaranteeGauge) (_alloc : AllocatorState) : Rat :=
  g.value

structure PushGauge where
  name : String
  value : Rat
deriving DecidableEq, Repr

/-! ## Parts of the repository outside this translation unit -/

/-- Modelled from the spec: the Key Normalizer (`normalizeMetricKey`,
declared in `master/metrics.hpp`, outside src/).  It deterministically maps a
raw domain key to a path segment containing no path separator; modelled as
replacing each `/` by `.`. -/
def normalizeMetricKey (key : String) : String :=
  String.mk (key.data.map (fun c => if c = '/' then '.' else c))

structure FrameworkInfo where
  name : String
  id : String
  roles : List String
deriving DecidableEq, Repr

/-- Modelled from the spec: `getFrameworkMetricPrefix` (declared in
`master/metrics.hpp`, outside src/) derives a metric-name prefix from the
framework identity. -/
def frameworkMetricBase (fw : FrameworkInfo) : String :=
  "master/frameworks/" ++ normalizeMetricKey fw.name ++ "/" ++ fw.id ++ "/"

/-- Modelled from the spec: `protobuf::framework::getRoles` (outside src/)
returns the set of roles the framework declares; modelled as the declared
role list with duplicates removed. -/
def getRoles (fw : FrameworkInfo) : List String :=
  fw.roles.dedup

/-! ## Metric names built by the allocator registry -/

def fixedMetricNames : List String :=
  ["allocator/mesos/event_queue_dispatches",
   "allocator/event_queue_dispatches",
   "allocator/mesos/allocation_runs",
   "allocator/mesos/allocation_run",
   "allocator/mesos/allocation_run_latency"]

def resourceKinds : List String := ["cpus", "mem", "disk"]

def resourceTotalName (r : String) : String :=
  "allocator/mesos/resources/" ++ r ++ "/total"

def resourceOfferedName (r : String) : String :=
  "allocator/mesos/resources/" ++ r ++ "/offered_or_allocated"

def quotaGuaranteeName (role resource : String) : String :=
  "allocator/mesos/quota" ++ "/roles/" ++ role ++ "/resources/" ++ resource ++
    "/guarantee"

def quotaAllocatedName (role resource : String) : String :=
  "allocator/mesos/quota" ++ "/roles/" ++ role ++ "/resources/" ++ resource ++
    "/offered_or_allocated"

def offerFilterName (role : String) : String :=
  "allocator/mesos/offer_filters/roles/" ++ role ++ "/active"

/-- The offer-filter gauge name as the spec's property states it, with the
role normalized by the Key Normalizer. -/
def offerFilterNameSpec (role : String) : String :=
  "allocator/mesos/offer_filters/roles/" ++ normalizeMetricKey role ++
    "/active"

/-! ## The allocator metrics registry (`Metrics`) -/

structure Metrics where
  resources_total : List String
  resources_offered_or_allocated : List String
  quota_allocated : List (String × List (String × String))
  quota_guarantee : List (String × List (String × GuaranteeGauge))
  offer_filters_active : List (String × String)
  catalog : Catalog
deriving DecidableEq

/-- `Metrics::Metrics`: registers the five fixed metrics and, per standard
resource kind, the `total` and `offered_or_allocated` pull gauges (the source
interleaves the two `add` calls per resource inside one loop). -/
def Metrics.construct (c : Catalog) : Metrics where
  resources_total := resourceKinds.map resourceTotalName
  resources_offered_or_allocated := resourceKinds.map resourceOfferedName
  quota_allocated := []
  quota_guarantee := []
  offer_filters_active := []
  catalog :=
    addAllF (addAllF c fixedMetricNames)
      (resourceKinds.flatMap
        (fun r => [resourceTotalName r, resourceOfferedName r]))

/-- The loop body of `Metrics::setQuota`: for each guaranteed resource,
`CHECK_EQ(Value::SCALAR, resource.type())` (fatal if violated, hence `none`),
then build the constant guarantee gauge and the pull allocated gauge, `put`
them into the local hashmaps and `add` them to the catalog. -/
def setQuotaLoop (role : String) :
    List Resource → List (String × String) → List (String × GuaranteeGauge) →
      Catalog →
      Option (List (String × String) × List (String × GuaranteeGauge) × Catalog)
  | [], allocated, guarantees, c => some (allocated, guarantees, c)
  | r :: rest, allocated, guarantees, c =>
    if r.type = ValueType.SCALAR then
      let value := r.scalarValue
      let guarantee : GuaranteeGauge := ⟨quotaGuaranteeName role r.name, value⟩
      let offered_or_allocated := quotaAllocatedName role r.name
      setQuotaLoop role rest
        (alPut allocated r.name offered_or_allocated)
        (alPut guarantees r.name guarantee)
        (metricsAdd (metricsAdd c guarantee.name) offered_or_allocated)
    else
      none

/-- `Metrics::setQuota`: `CHECK(!quota_allocated.contains(role))` (fatal if
violated), then the per-resource loop, then store both local maps under the
role key. -/
def Metrics.setQuota (s : Metrics) (role : String) (quota : Quota) :
    Option Metrics :=
  if alContains s.quota_allocated role then
    none
  else
    match setQuotaLoop role quota.info.guarantee [] [] s.catalog with
    | none => none
    | some (allocated, guarantees, c) =>
      some { s with
        quota_allocated := alPut s.quota_allocated role allocated
        quota_guarantee := alPut s.quota_guarantee role guarantees
        catalog := c }

/-- `Metrics::removeQuota`: `CHECK(quota_allocated.contains(role))` (fatal if
violated), remove every allocated-side gauge of the role from the catalog and
erase the role's allocated entry.  The `quota_guarantee` entry is untouched. -/
def Metrics.removeQuota (s : Metrics) (role : String) : Option Metrics :=
  match alLookup s.quota_allocated role with
  | none => none
  | some gauges =>
    some { s with
      quota_allocated := alErase s.quota_allocated role
      catalog := removeAllF s.catalog (alValues gauges) }

/-- `Metrics::addRole`: `CHECK(!offer_filters_active.contains(role))` (fatal
if violated), then build the gauge named from the raw role, store and add. -/
def Metrics.addRole (s : Metrics) (role : String) : Option Metrics :=
  if alContains s.offer_filters_active role then
    none
  else
    some { s with
      offer_filters_active :=
        alPut s.offer_filters_active role (offerFilterName role)
      catalog := metricsAdd s.catalog (offerFilterName role) }

/-- `Metrics::removeRole`: `CHECK_SOME(gauge)` (fatal if absent), erase the
entry and remove the gauge. -/
def Metrics.removeRole (s : Metrics) (role : String) : Option Metrics :=
  match alLookup s.offer_filters_active role with
  | none => none
  | some gauge =>
    some { s with
      offer_filters_active := alErase s.offer_filters_active role
      catalog := metricsRemove s.catalog gauge }

/-- The names `Metrics::~Metrics` removes, in the order the destructor walks
them: fixed metrics, resource totals, resource offered-or-allocated, every
surviving quota-allocated gauge, every surviving quota-guarantee gauge, every
surviving offer-filter gauge. -/
def Metrics.destructorNames (s : Metrics) : List String :=
  fixedMetricNames ++ s.resources_total ++ s.resources_offered_or_allocated ++
    s.quota_allocated.flatMap (fun p => alValues p.2) ++
    (s.quota_guarantee.flatMap (fun p => alValues p.2)).map
      GuaranteeGauge.name ++
    alValues s.offer_filters_active

/-- `Metrics::~Metrics`: the catalog after all removals. -/
def Metrics.destruct (s : Metrics) : Catalog :=
  removeAllF s.catalog s.destructorNames

/-! ## The per-framework metrics registry (`FrameworkMetrics`) -/

/-- `FrameworkMetrics::DrfPositions`: two push gauges named `<base>min` and
`<base>max`, always created and destroyed together. -/
structure DrfPositions where
  min : PushGauge
  max : PushGauge
deriving DecidableEq, Repr

/-- `DrfPositions::DrfPositions(prefixString)`: push gauges start at 0. -/
def DrfPositions.make (base : String) : DrfPositions :=
  ⟨⟨base ++ "min", 0⟩, ⟨base ++ "max", 0⟩⟩

structure FrameworkMetrics where
  frameworkInfo : FrameworkInfo
  roleDrfPositions : List (String × DrfPositions)
  suppressed : List (String × PushGauge)
  catalog : Catalog
deriving DecidableEq

def frameworkFixedNames (fw : FrameworkInfo) : List String :=
  [frameworkMetricBase fw ++ "allocation/resources_filtered",
   frameworkMetricBase fw ++ "allocation/resources_filtered/decline",
   frameworkMetricBase fw ++ "allocation/resources_filtered/gpu_resources",
   frameworkMetricBase fw ++ "allocation/resources_filtered/region_aware",
   frameworkMetricBase fw ++
     "allocation/resources_filtered/reservation_refinement",
   frameworkMetricBase fw ++ "allocation/resources_filtered/revocable_resources"]

def suppressedGaugeName (fw : FrameworkInfo) (role : String) : String :=
  frameworkMetricBase fw ++ "roles/" ++ normalizeMetricKey role ++ "/suppressed"

def drfPositionBase (fw : FrameworkInfo) (role : String) : String :=
  frameworkMetricBase fw ++ "allocation/roles/" ++ normalizeMetricKey role ++
    "/latest_position/"

/-- `FrameworkMetrics::reviveRole`: lazily create and register the suppression
gauge for the role, then store 0 (not suppressed). -/
def FrameworkMetrics.reviveRole (s : FrameworkMetrics) (role : String) :
    FrameworkMetrics :=
  let s :=
    if alContains s.suppressed role then s
    else
      { s with
        suppressed := alPut s.suppressed role
          ⟨suppressedGaugeName s.frameworkInfo role, 0⟩
        catalog :=
          metricsAdd s.catalog (suppressedGaugeName s.frameworkInfo role) }
  { s with
    suppressed := alUpdate s.suppressed role (fun g => ⟨g.name, 0⟩) }

/-- `FrameworkMetrics::suppressRole`: same as revive, but stores 1. -/
def FrameworkMetrics.suppressRole (s : FrameworkMetrics) (role : String) :
    FrameworkMetrics :=
  let s :=
    if alContains s.suppressed role then s
    else
      { s with
        suppressed := alPut s.suppressed role
          ⟨suppressedGaugeName s.frameworkInfo role, 0⟩
        catalog :=
          metricsAdd s.catalog (suppressedGaugeName s.frameworkInfo role) }
  { s with
    suppressed := alUpdate s.suppressed role (fun g => ⟨g.name, 1⟩) }

/-- `FrameworkMetrics::removeSuppressedRole`:
`CHECK(suppressed.contains(role))` (fatal if absent), remove the gauge from
the catalog and erase the entry. -/
def FrameworkMetrics.removeSuppressedRole (s : FrameworkMetrics)
    (role : String) : Option FrameworkMetrics :=
  match alLookup s.suppressed role with
  | none => none
  | some g =>
    some { s with
      catalog := metricsRemove s.catalog g.name
      suppressed := alErase s.suppressed role }

/-- `FrameworkMetrics::setDrfPositions`: on first call for a role, create the
min/max pair, register both gauges; in every case store both components. -/
def FrameworkMetrics.setDrfPositions (s : FrameworkMetrics) (role : String)
    (minMax : Nat × Nat) : FrameworkMetrics :=
  let s :=
    if alContains s.roleDrfPositions role then s
    else
      let positions := DrfPositions.make (drfPositionBase s.frameworkInfo role)
      { s with
        roleDrfPositions := alPut s.roleDrfPositions role positions
        catalog :=
          metricsAdd (metricsAdd s.catalog positions.min.name)
            positions.max.name }
  { s with
    roleDrfPositions := alUpdate s.roleDrfPositions role
      (fun d => ⟨⟨d.min.name, (minMax.1 : Rat)⟩, ⟨d.max.name, (minMax.2 : Rat)⟩⟩) }

/-- `FrameworkMetrics::FrameworkMetrics`: register the six fixed
filtered-resource counters, then revive every declared role. -/
def FrameworkMetrics.construct (fw : FrameworkInfo) (c : Catalog) :
    FrameworkMetrics :=
  (getRoles fw).foldl (fun s role => s.reviveRole role)
    { frameworkInfo := fw
      roleDrfPositions := []
      suppressed := []
      catalog := addAllF c (frameworkFixedNames fw) }

/-- The names `FrameworkMetrics::~FrameworkMetrics` removes, in destructor
order: the six fixed counters, both gauges of every DRF position pair, every
surviving suppression gauge. -/
def FrameworkMetrics.destructorNames (s : FrameworkMetrics) : List String :=
  frameworkFixedNames s.frameworkInfo ++
    s.roleDrfPositions.flatMap (fun p => [p.2.min.name, p.2.max.name]) ++
    (alValues s.suppressed).map PushGauge.name

/-- `FrameworkMetrics::~FrameworkMetrics`: the catalog after all removals. -/
def FrameworkMetrics.destruct (s : FrameworkMetrics) : Catalog :=
  removeAllF s.catalog s.destructorNames

/-! ## Operation sequences -/

/-- The mutating operations of the allocator registry. -/
inductive MOp
  | setQuota (role : String) (quota : Quota)
  | removeQuota (role : String)
  | addRole (role : String)
  | removeRole (role : String)
deriving DecidableEq, Repr

def applyMOp (s : Metrics) : MOp → Option Metrics
  | MOp.setQuota role quota => s.setQuota role quota
  | MOp.removeQuota role => s.removeQuota role
  | MOp.addRole role => s.addRole role
  | MOp.removeRole role => s.removeRole role

/-- Run a sequence of allocator-registry operations; `none` as soon as one
operation hits a fatal `CHECK`. -/
def runMOps (s : Metrics) : List MOp → Option Metrics
  | [] => some s
  | op :: ops => (applyMOp s op).bind (fun s' => runMOps s' ops)

/-- The mutating operations of the framework registry. -/
inductive FOp
  | setDrfPositions (role : String) (minMax : Nat × Nat)
  | reviveRole (role : String)
  | suppressRole (role : String)
  | removeSuppressedRole (role : String)
deriving DecidableEq, Repr

def applyFOp (s : FrameworkMetrics) : FOp → Option FrameworkMetrics
  | FOp.setDrfPositions role minMax => some (s.setDrfPositions role minMax)
  | FOp.reviveRole role => some (s.reviveRole role)
  | FOp.suppressRole role => some (s.suppressRole role)
  | FOp.removeSuppressedRole role => s.removeSuppressedRole role

def runFOps (s : FrameworkMetrics) : List FOp → Option FrameworkMetrics
  | [] => some s
  | op :: ops => (applyFOp s op).bind (fun s' => runFOps s' ops)

/-- Just the two offer-filter operations, for the offer-filter invariant. -/
inductive RoleOp
  | add (role : String)
  | remove (role : String)
deriving DecidableEq, Repr

def applyRoleOp (s : Metrics) : RoleOp → Option Metrics
  | RoleOp.add role => s.addRole role
  | RoleOp.remove role => s.removeRole role

def runRoleOps (s : Metrics) : List RoleOp → Option Metrics
  | [] => some s
  | op :: ops => (applyRoleOp s op).bind (fun s' => runRoleOps s' ops)

/-- The set of roles a precondition-respecting `RoleOp` sequence leaves
"added", read off the sequence itself (the spec-side description). -/
def rolesAfter : List RoleOp → List String → List String
  | [], cur => cur
  | RoleOp.add r :: ops, cur => rolesAfter ops (r :: cur)
  | RoleOp.remove r :: ops, cur =>
    rolesAfter ops (cur.filter (fun x => x ≠ r))

/-- Revive/suppress calls for one fixed role. -/
inductive RSOp
  | revive
  | suppress
deriving DecidableEq, Repr

def applyRS (s : FrameworkMetrics) (role : String) : RSOp → FrameworkMetrics
  | RSOp.revive => s.reviveRole role
  | RSOp.suppress => s.suppressRole role

def runRS (s : FrameworkMetrics) (role : String) :
    List RSOp → FrameworkMetrics
  | [] => s
  | op :: ops => runRS (applyRS s role op) role ops

/-- The last element of the nonempty sequence `op :: ops`. -/
def lastRS (op : RSOp) : List RSOp → RSOp
  | [] => op
  | op' :: ops => lastRS op' ops

/-- The stored suppression value dictated by a call: 1 for suppress, 0 for
revive. -/
def rsVal : RSOp → Rat
  | RSOp.revive => 0
  | RSOp.suppress => 1

/-! ## Further association-list lemmas -/

theorem alLookup_alErase_ne {α : Type} :
    ∀ {l : List (String × α)} {k k' : String}, k' ≠ k →
      alLookup (alErase l k) k' = alLookup l k' := by
  intro l
  induction l with
  | nil => intro k k' _; rfl
  | cons q l ih =>
    intro k k' h
    by_cases hq : q.1 = k
    · have hq' : q.1 ≠ k' := fun he => h (he.symm.trans hq)
      simp only [alErase, if_pos hq, alLookup, if_neg hq']
      exact ih h
    · by_cases hq' : q.1 = k'
      · simp only [alErase, if_neg hq, alLookup, if_pos hq']
      · simp only [alErase, if_neg hq, alLookup, if_neg hq']
        exact ih h

theorem alLookup_alPut_self {α : Type} (l : List (String × α)) (k : String)
    (v : α) : alLookup (alPut l k v) k = some v := by
  simp [alPut, alLookup]

theorem alLookup_alPut_ne {α : Type} (l : List (String × α)) {k k' : String}
    (v : α) (h : k' ≠ k) : alLookup (alPut l k v) k' = alLookup l k' := by
  have hk : k ≠ k' := fun he => h he.symm
  simp only [alPut, alLookup, if_neg hk]
  exact alLookup_alErase_ne h

theorem alContains_cons_ne {α : Type} {q : String × α} {l : List (String × α)}
    {k : String} (h : q.1 ≠ k) : alContains (q :: l) k = alContains l k := by
  simp [alContains, alLookup, h]

theorem alErase_sublist {α : Type} :
    ∀ (l : List (String × α)) (k : String), List.Sublist (alErase l k) l := by
  intro l
  induction l with
  | nil => intro k; simp [alErase]
  | cons q l ih =>
    intro k
    by_cases hq : q.1 = k
    · simp only [alErase, if_pos hq]
      exact (ih k).cons q
    · simp only [alErase, if_neg hq]
      exact (ih k).cons₂ q

theorem alErase_keys_nodup {α : Type} {l : List (String × α)} {k : String}
    (h : (l.map Prod.fst).Nodup) :
    ((alErase l k).map Prod.fst).Nodup :=
  h.sublist ((alErase_sublist l k).map Prod.fst)

theorem alPut_keys_nodup {α : Type} {l : List (String × α)} {k : String}
    {v : α} (h : (l.map Prod.fst).Nodup) :
    ((alPut l k v).map Prod.fst).Nodup := by
  rw [alPut, List.map_cons, List.nodup_cons]
  refine ⟨?_, alErase_keys_nodup h⟩
  intro hm
  rw [List.mem_map] at hm
  obtain ⟨p, hp, hpk⟩ := hm
  exact absurd hpk (mem_alErase.mp hp).2

theorem alLookup_alUpdate_self {α : Type} :
    ∀ (l : List (String × α)) (k : String) (f : α → α),
      alLookup (alUpdate l k f) k = (alLookup l k).map f := by
  intro l
  induction l with
  | nil => intro k f; rfl
  | cons q l ih =>
    intro k f
    by_cases hq : q.1 = k
    · simp [alUpdate, hq, alLookup]
    · simp only [alUpdate, List.map_cons, if_neg hq, alLookup]
      exact ih k f

/-! ## Separation facts about the generated metric names -/

theorem guarantee_ne_allocated (x y : String) :
    x ++ "/guarantee" ≠ y ++ "/offered_or_allocated" :=
  append_ne_append_of_suffix (by decide) (by decide)

theorem quotaGuaranteeName_inj {role r₁ r₂ : String}
    (h : quotaGuaranteeName role r₁ = quotaGuaranteeName role r₂) :
    r₁ = r₂ :=
  string_append_left_cancel (string_append_right_cancel h)

theorem quotaAllocatedName_inj {role r₁ r₂ : String}
    (h : quotaAllocatedName role r₁ = quotaAllocatedName role r₂) :
    r₁ = r₂ :=
  string_append_left_cancel (string_append_right_cancel h)

theorem quotaGuaranteeName_ne_allocatedName (role₁ role₂ r₁ r₂ : String) :
    quotaGuaranteeName role₁ r₁ ≠ quotaAllocatedName role₂ r₂ :=
  guarantee_ne_allocated _ _

theorem offerFilterName_inj {r₁ r₂ : String}
    (h : offerFilterName r₁ = offerFilterName r₂) : r₁ = r₂ :=
  string_append_left_cancel (string_append_right_cancel h)

/-! ## Characterizing `setQuotaLoop` -/

theorem setQuotaLoop_none (role : String) :
    ∀ (rs : List Resource), (∃ r ∈ rs, r.type ≠ ValueType.SCALAR) →
      ∀ a g c, setQuotaLoop role rs a g c = none := by
  intro rs
  induction rs with
  | nil => rintro ⟨r, hr, _⟩; cases hr
  | cons r₀ rs ih =>
    rintro ⟨r, hr, hne⟩ a g c
    rw [List.mem_cons] at hr
    by_cases h0 : r₀.type = ValueType.SCALAR
    · have hr' : r ∈ rs := by
        rcases hr with rfl | hr
        · exact absurd h0 hne
        · exact hr
      simp only [setQuotaLoop, if_pos h0]
      exact ih ⟨r, hr', hne⟩ _ _ _
    · simp [setQuotaLoop, h0]

theorem setQuotaLoop_some (role : String) :
    ∀ (rs : List Resource) a g c, (∀ r ∈ rs, r.type = ValueType.SCALAR) →
      ∃ out, setQuotaLoop role rs a g c = some out := by
  intro rs
  induction rs with
  | nil => intro a g c _; exact ⟨_, rfl⟩
  | cons r₀ rs ih =>
    intro a g c h
    have h0 : r₀.type = ValueType.SCALAR := h r₀ (by simp)
    simp only [setQuotaLoop, if_pos h0]
    exact ih _ _ _ (fun r hr => h r (by simp [hr]))

theorem setQuotaLoop_sound (role : String) :
    ∀ (rs : List Resource) a g c a' g' c',
      setQuotaLoop role rs a g c = some (a', g', c') →
      (∀ r ∈ rs, r.type = ValueType.SCALAR) ∧
      (∀ m, m ∈ c' ↔ m ∈ c ∨ ∃ r ∈ rs,
        m = quotaGuaranteeName role r.name ∨
        m = quotaAllocatedName role r.name) := by
  intro rs
  induction rs with
  | nil =>
    intro a g c a' g' c' h
    simp only [setQuotaLoop, Option.some.injEq] at h
    obtain ⟨rfl, rfl, rfl⟩ := h
    simp
  | cons r₀ rs ih =>
    intro a g c a' g' c' h
    by_cases h0 : r₀.type = ValueType.SCALAR
    · simp only [setQuotaLoop, if_pos h0] at h
      obtain ⟨hscalar, hcat⟩ := ih _ _ _ _ _ _ h
      constructor
      · intro r hr
        rw [List.mem_cons] at hr
        rcases hr with rfl | hr
        · exact h0
        · exact hscalar r hr
      · intro m
        rw [hcat m]
        simp only [metricsAdd, Finset.mem_insert, List.mem_cons]
        constructor
        · rintro ((rfl | rfl | hm) | ⟨r, hr, hm⟩)
          · exact Or.inr ⟨r₀, Or.inl rfl, Or.inr rfl⟩
          · exact Or.inr ⟨r₀, Or.inl rfl, Or.inl rfl⟩
          · exact Or.inl hm
          · exact Or.inr ⟨r, Or.inr hr, hm⟩
        · rintro (hm | ⟨r, rfl | hr, hm⟩)
          · exact Or.inl (Or.inr (Or.inr hm))
          · rcases hm with rfl | rfl
            · exact Or.inl (Or.inr (Or.inl rfl))
            · exact Or.inl (Or.inl rfl)
          · exact Or.inr ⟨r, hr, hm⟩
    · simp [setQuotaLoop, h0] at h

theorem setQuotaLoop_lookup_frame (role : String) :
    ∀ (rs : List Resource) a g c a' g' c',
      setQuotaLoop role rs a g c = some (a', g', c') →
      ∀ k, k ∉ rs.map Resource.name → alLookup g' k = alLookup g k := by
  intro rs
  induction rs with
  | nil =>
    intro a g c a' g' c' h k _
    simp only [setQuotaLoop, Option.some.injEq] at h
    obtain ⟨rfl, rfl, rfl⟩ := h
    rfl
  | cons r₀ rs ih =>
    intro a g c a' g' c' h k hk
    by_cases h0 : r₀.type = ValueType.SCALAR
    · simp only [setQuotaLoop, if_pos h0] at h
      rw [List.map_cons, List.mem_cons] at hk
      push_neg at hk
      rw [ih _ _ _ _ _ _ h k hk.2]
      exact alLookup_alPut_ne _ _ hk.1
    · simp [setQuotaLoop, h0] at h

theorem setQuotaLoop_lookup (role : String) :
    ∀ (rs : List Resource) a g c a' g' c',
      setQuotaLoop role rs a g c = some (a', g', c') →
      (rs.map Resource.name).Nodup →
      ∀ r ∈ rs, alLookup g' r.name =
        some ⟨quotaGuaranteeName role r.name, r.scalarValue⟩ := by
  intro rs
  induction rs with
  | nil => intro a g c a' g' c' _ _ r hr; cases hr
  | cons r₀ rs ih =>
    intro a g c a' g' c' h hnd r hr
    by_cases h0 : r₀.type = ValueType.SCALAR
    · simp only [setQuotaLoop, if_pos h0] at h
      rw [List.map_cons, List.nodup_cons] at hnd
      rw [List.mem_cons] at hr
      rcases hr with rfl | hr
      · rw [setQuotaLoop_lookup_frame role rs _ _ _ _ _ _ h r.name hnd.1]
        exact alLookup_alPut_self _ _ _
      · exact ih _ _ _ _ _ _ h hnd.2 r hr
    · simp [setQuotaLoop, h0] at h

/-! ## The gauge-name pairs a `setQuota` call registers -/

def quotaPairNames (role : String) (rs : List Resource) : List String :=
  rs.flatMap (fun r =>
    [quotaGuaranteeName role r.name, quotaAllocatedName role r.name])

theorem mem_quotaPairNames {role : String} {rs : List Resource} {m : String} :
    m ∈ quotaPairNames role rs ↔ ∃ r ∈ rs,
      m = quotaGuaranteeName role r.name ∨
      m = quotaAllocatedName role r.name := by
  simp [quotaPairNames, List.mem_flatMap]

theorem quotaPairNames_length (role : String) :
    ∀ rs : List Resource, (quotaPairNames role rs).length = 2 * rs.length := by
  intro rs
  induction rs with
  | nil => rfl
  | cons r rs ih =>
    simp only [quotaPairNames, List.flatMap_cons, List.length_append,
      List.length_cons, List.length_nil] at *
    omega

theorem quotaPairNames_nodup (role : String) :
    ∀ rs : List Resource, (rs.map Resource.name).Nodup →
      (quotaPairNames role rs).Nodup := by
  intro rs
  induction rs with
  | nil => intro _; simp [quotaPairNames]
  | cons r rs ih =>
    intro hnd
    rw [List.map_cons, List.nodup_cons] at hnd
    have hmem : ∀ m ∈ quotaPairNames role rs,
        m ≠ quotaGuaranteeName role r.name ∧
        m ≠ quotaAllocatedName role r.name := by
      intro m hm
      obtain ⟨r', hr', hm'⟩ := mem_quotaPairNames.mp hm
      have hname : r'.name ≠ r.name := by
        intro he
        exact hnd.1 (he ▸ List.mem_map.mpr ⟨r', hr', rfl⟩)
      rcases hm' with rfl | rfl
      · exact ⟨fun he => hname (quotaGuaranteeName_inj he),
          fun he => quotaGuaranteeName_ne_allocatedName _ _ _ _ he⟩
      · exact ⟨fun he =>
          quotaGuaranteeName_ne_allocatedName _ _ _ _ he.symm,
          fun he => hname (quotaAllocatedName_inj he)⟩
    show ((quotaGuaranteeName role r.name ::
      quotaAllocatedName role r.name :: quotaPairNames role rs)).Nodup
    rw [List.nodup_cons, List.nodup_cons]
    refine ⟨?_, ?_, ih hnd.2⟩
    · rw [List.mem_cons]
      rintro (he | hm)
      · exact quotaGuaranteeName_ne_allocatedName _ _ _ _ he
      · exact (hmem _ hm).1 rfl
    · intro hm
      exact (hmem _ hm).2 rfl

/-! ## The freshly constructed allocator registry -/

theorem construct_catalog (c : Catalog) :
    (Metrics.construct c).catalog =
      c ∪ fixedMetricNames.toFinset ∪
        (resourceKinds.flatMap
          (fun r => [resourceTotalName r, resourceOfferedName r])).toFinset := by
  simp [Metrics.construct, addAllF_eq]

/-- A string starting with `p` is not in a list none of whose members starts
with `p`. -/
theorem append_not_mem {p x : String} (l : List String)
    (hl : ∀ y ∈ l, ¬ p.data <+: y.data) : p ++ x ∉ l := by
  intro hm
  exact hl (p ++ x) hm ⟨x.data, (String.data_append p x).symm⟩

theorem offerFilterName_not_mem_construct (r : String) :
    offerFilterName r ∉ (Metrics.construct ∅).catalog := by
  rw [construct_catalog]
  intro h
  have hshape : offerFilterName r =
      "allocator/mesos/offer_filters/roles/" ++ (r ++ "/active") := by
    rw [offerFilterName, String.append_assoc]
  rw [hshape] at h
  simp only [Finset.mem_union, List.mem_toFinset, Finset.not_mem_empty,
    false_or] at h
  rcases h with h | h
  · exact append_not_mem _ (by decide) h
  · exact append_not_mem _ (by decide) h

/-! ## The offer-filter key-space invariant -/

/-- The relation, maintained by every precondition-respecting
`addRole`/`removeRole` sequence, between the registry state and the
spec-level list `cur` of currently added roles. -/
structure OfferInv (s : Metrics) (cur : List String) : Prop where
  vals : ∀ p ∈ s.offer_filters_active, p.2 = offerFilterName p.1
  keys : ∀ r : String, r ∈ s.offer_filters_active.map Prod.fst ↔ r ∈ cur
  cat : s.catalog = (Metrics.construct ∅).catalog ∪
    (s.offer_filters_active.map Prod.snd).toFinset

theorem offerInv_construct : OfferInv (Metrics.construct ∅) [] := by
  refine ⟨?_, ?_, ?_⟩
  · intro p hp; cases hp
  · intro r; simp [Metrics.construct]
  · simp [Metrics.construct]

theorem offerInv_add {s : Metrics} {cur : List String} {r : String}
    {s' : Metrics} (inv : OfferInv s cur) (h : s.addRole r = some s') :
    OfferInv s' (r :: cur) := by
  unfold Metrics.addRole at h
  cases hc : alContains s.offer_filters_active r with
  | true => rw [hc] at h; simp at h
  | false =>
    rw [hc] at h
    simp only [Bool.false_eq_true, if_false, Option.some.injEq] at h
    subst h
    have he : alErase s.offer_filters_active r = s.offer_filters_active :=
      alErase_of_not_contains hc
    refine ⟨?_, ?_, ?_⟩
    · intro p hp
      simp only [alPut, he, List.mem_cons] at hp
      rcases hp with rfl | hp
      · rfl
      · exact inv.vals p hp
    · intro r'
      simp only [alPut, he, List.map_cons, List.mem_cons, inv.keys r']
    · simp only [alPut, he, List.map_cons, List.toFinset_cons, inv.cat,
        metricsAdd]
      ext m
      simp only [Finset.mem_insert, Finset.mem_union, List.mem_toFinset]
      tauto

theorem mem_keys_alErase {α : Type} {l : List (String × α)}
    {k r' : String} :
    r' ∈ (alErase l k).map Prod.fst ↔ r' ∈ l.map Prod.fst ∧ r' ≠ k := by
  simp only [List.mem_map]
  constructor
  · rintro ⟨p, hp, rfl⟩
    obtain ⟨hpl, hpk⟩ := mem_alErase.mp hp
    exact ⟨⟨p, hpl, rfl⟩, hpk⟩
  · rintro ⟨⟨p, hpl, rfl⟩, hk⟩
    exact ⟨p, mem_alErase.mpr ⟨hpl, hk⟩, rfl⟩

theorem offerInv_remove {s : Metrics} {cur : List String} {r : String}
    {s' : Metrics} (inv : OfferInv s cur) (h : s.removeRole r = some s') :
    OfferInv s' (cur.filter (fun x => x ≠ r)) := by
  unfold Metrics.removeRole at h
  cases hl : alLookup s.offer_filters_active r with
  | none => rw [hl] at h; cases h
  | some gauge =>
    rw [hl] at h
    simp only [Option.some.injEq] at h
    subst h
    have hg : gauge = offerFilterName r := inv.vals _ (alLookup_mem hl)
    refine ⟨?_, ?_, ?_⟩
    · intro p hp
      exact inv.vals p (mem_alErase.mp hp).1
    · intro r'
      rw [mem_keys_alErase, inv.keys r', List.mem_filter]
      simp
    · show metricsRemove s.catalog gauge = _
      rw [hg, inv.cat, metricsRemove, Finset.erase_eq,
        Finset.union_sdiff_distrib]
      have hbase : (Metrics.construct ∅).catalog \ {offerFilterName r} =
          (Metrics.construct ∅).catalog := by
        rw [Finset.sdiff_eq_self_iff_disjoint,
          Finset.disjoint_singleton_right]
        exact offerFilterName_not_mem_construct r
      rw [hbase]
      congr 1
      ext m
      simp only [Finset.mem_sdiff, List.mem_toFinset, List.mem_map,
        Finset.mem_singleton]
      constructor
      · rintro ⟨⟨p, hp, rfl⟩, hne⟩
        have hpr : p.1 ≠ r := by
          intro he
          exact hne (by rw [inv.vals p hp, he])
        exact ⟨p, mem_alErase.mpr ⟨hp, hpr⟩, rfl⟩
      · rintro ⟨p, hp, rfl⟩
        obtain ⟨hpl, hpr⟩ := mem_alErase.mp hp
        refine ⟨⟨p, hpl, rfl⟩, ?_⟩
        rw [inv.vals p hpl]
        intro he
        exact hpr (offerFilterName_inj he)

theorem runRoleOps_inv :
    ∀ (ops : List RoleOp) (s : Metrics) (cur : List String) (s' : Metrics),
      OfferInv s cur → runRoleOps s ops = some s' →
      OfferInv s' (rolesAfter ops cur) := by
  intro ops
  induction ops with
  | nil =>
    intro s cur s' inv h
    simp only [runRoleOps, Option.some.injEq] at h
    subst h
    exact inv
  | cons op ops ih =>
    intro s cur s' inv h
    cases op with
    | add r =>
      cases ha : s.addRole r with
      | none => simp [runRoleOps, applyRoleOp, ha] at h
      | some s₁ =>
        simp only [runRoleOps, applyRoleOp, ha, Option.bind_some] at h
        exact ih s₁ (r :: cur) s' (offerInv_add inv ha) h
    | remove r =>
      cases ha : s.removeRole r with
      | none => simp [runRoleOps, applyRoleOp, ha] at h
      | some s₁ =>
        simp only [runRoleOps, applyRoleOp, ha, Option.bind_some] at h
        exact ih s₁ (cur.filter (fun x => x ≠ r)) s'
          (offerInv_remove inv ha) h

/-! ## Single-step shapes of the framework-registry operations -/

theorem alUpdate_cons_self {α : Type} (k : String) (v : α)
    (l : List (String × α)) (f : α → α) :
    alUpdate ((k, v) :: l) k f = (k, f v) :: alUpdate l k f := by
  simp [alUpdate]

theorem reviveRole_fresh {s : FrameworkMetrics} {role : String}
    (h : alContains s.suppressed role = false) :
    s.reviveRole role = { s with
      suppressed :=
        (role, (⟨suppressedGaugeName s.frameworkInfo role, 0⟩ : PushGauge)) ::
          s.suppressed
      catalog :=
        metricsAdd s.catalog (suppressedGaugeName s.frameworkInfo role) } := by
  simp [FrameworkMetrics.reviveRole, h, alPut, alErase_of_not_contains h,
    alUpdate_cons_self, alUpdate_of_not_contains h]

theorem suppressRole_fresh {s : FrameworkMetrics} {role : String}
    (h : alContains s.suppressed role = false) :
    s.suppressRole role = { s with
      suppressed :=
        (role, (⟨suppressedGaugeName s.frameworkInfo role, 1⟩ : PushGauge)) ::
          s.suppressed
      catalog :=
        metricsAdd s.catalog (suppressedGaugeName s.frameworkInfo role) } := by
  simp [FrameworkMetrics.suppressRole, h, alPut, alErase_of_not_contains h,
    alUpdate_cons_self, alUpdate_of_not_contains h]

theorem reviveRole_cons {s : FrameworkMetrics} {role : String}
    {g : PushGauge} {rest : List (String × PushGauge)}
    (hs : s.suppressed = (role, g) :: rest)
    (hrest : alContains rest role = false) :
    s.reviveRole role =
      { s with suppressed := (role, (⟨g.name, 0⟩ : PushGauge)) :: rest } := by
  simp [FrameworkMetrics.reviveRole, hs, alContains, alLookup,
    alUpdate_cons_self, alUpdate_of_not_contains hrest]

theorem suppressRole_cons {s : FrameworkMetrics} {role : String}
    {g : PushGauge} {rest : List (String × PushGauge)}
    (hs : s.suppressed = (role, g) :: rest)
    (hrest : alContains rest role = false) :
    s.suppressRole role =
      { s with suppressed := (role, (⟨g.name, 1⟩ : PushGauge)) :: rest } := by
  simp [FrameworkMetrics.suppressRole, hs, alContains, alLookup,
    alUpdate_cons_self, alUpdate_of_not_contains hrest]

/-! ## Revive/suppress sequences for one role -/

theorem runRS_cons_state :
    ∀ (ops : List RSOp) (u : FrameworkMetrics) (role name : String) (v : Rat)
      (rest : List (String × PushGauge)),
      u.suppressed = (role, ⟨name, v⟩) :: rest →
      alContains rest role = false →
      runRS u role ops =
        { u with suppressed :=
            (role, ⟨name, ops.foldl (fun _ op => rsVal op) v⟩) :: rest } := by
  intro ops
  induction ops with
  | nil =>
    intro u role name v rest hs hrest
    show u = _
    cases u with
    | mk fw drf sup cat =>
      simp only at hs
      rw [List.foldl_nil]
      simp [hs]
  | cons op ops ih =>
    intro u role name v rest hs hrest
    show runRS (applyRS u role op) role ops = _
    have happ : applyRS u role op =
        { u with suppressed := (role, ⟨name, rsVal op⟩) :: rest } := by
      cases op with
      | revive => exact reviveRole_cons hs hrest
      | suppress => exact suppressRole_cons hs hrest
    rw [happ]
    rw [ih _ role name (rsVal op) rest rfl hrest]
    cases u
    simp [List.foldl_cons]

theorem foldl_rsVal_eq_lastRS :
    ∀ (ops : List RSOp) (op : RSOp),
      ops.foldl (fun _ o => rsVal o) (rsVal op) = rsVal (lastRS op ops) := by
  intro ops
  induction ops with
  | nil => intro op; rfl
  | cons o os ih =>
    intro op
    simp only [List.foldl_cons, lastRS]
    exact ih o

/-! ## Framework-registry construction -/

theorem foldl_revive_fresh :
    ∀ (roles : List String) (s : FrameworkMetrics),
      roles.Nodup → (∀ r ∈ roles, alContains s.suppressed r = false) →
      roles.foldl (fun t role => t.reviveRole role) s =
        { s with
          suppressed := (roles.map (fun r =>
            (r, (⟨suppressedGaugeName s.frameworkInfo r, 0⟩ : PushGauge)))).reverse
            ++ s.suppressed
          catalog := addAllF s.catalog
            (roles.map (suppressedGaugeName s.frameworkInfo)) } := by
  intro roles
  induction roles with
  | nil =>
    intro s _ _
    cases s
    simp [addAllF]
  | cons r roles ih =>
    intro s hnd hfresh
    rw [List.nodup_cons] at hnd
    have hfr : alContains s.suppressed r = false := hfresh r (by simp)
    have hfresh' : ∀ r' ∈ roles,
        alContains
          ((r, (⟨suppressedGaugeName s.frameworkInfo r, 0⟩ : PushGauge)) ::
            s.suppressed) r' = false := by
      intro r' hr'
      rw [alContains_cons_ne (show r ≠ r' from fun he => hnd.1 (he ▸ hr'))]
      exact hfresh r' (List.mem_cons_of_mem r hr')
    rw [List.foldl_cons, reviveRole_fresh hfr,
      ih { s with
        suppressed :=
          (r, (⟨suppressedGaugeName s.frameworkInfo r, 0⟩ : PushGauge)) ::
            s.suppressed
        catalog :=
          metricsAdd s.catalog (suppressedGaugeName s.frameworkInfo r) }
        hnd.2 hfresh']
    cases s
    simp [List.reverse_cons, List.append_assoc, addAllF, List.map_cons,
      List.foldl_cons]

/-! ## DRF position pairs -/

theorem setDrfPositions_fresh {s : FrameworkMetrics} {role : String}
    {mm : Nat × Nat} (h : alContains s.roleDrfPositions role = false) :
    s.setDrfPositions role mm = { s with
      roleDrfPositions := (role,
        (⟨⟨drfPositionBase s.frameworkInfo role ++ "min", (mm.1 : Rat)⟩,
          ⟨drfPositionBase s.frameworkInfo role ++ "max", (mm.2 : Rat)⟩⟩ :
          DrfPositions)) :: s.roleDrfPositions
      catalog := metricsAdd
        (metricsAdd s.catalog (drfPositionBase s.frameworkInfo role ++ "min"))
        (drfPositionBase s.frameworkInfo role ++ "max") } := by
  simp [FrameworkMetrics.setDrfPositions, h, DrfPositions.make, alPut,
    alErase_of_not_contains h, alUpdate_cons_self, alUpdate_of_not_contains h]

theorem setDrfPositions_present {s : FrameworkMetrics} {role : String}
    {mm : Nat × Nat} (h : alContains s.roleDrfPositions role = true) :
    s.setDrfPositions role mm = { s with
      roleDrfPositions := alUpdate s.roleDrfPositions role
        (fun d => ⟨⟨d.min.name, (mm.1 : Rat)⟩, ⟨d.max.name, (mm.2 : Rat)⟩⟩) } := by
  simp [FrameworkMetrics.setDrfPositions, h]

theorem drf_pair_removed_in_destruct {s : FrameworkMetrics} {role : String}
    {d : DrfPositions} (h : alLookup s.roleDrfPositions role = some d) :
    d.min.name ∉ s.destruct ∧ d.max.name ∉ s.destruct := by
  have hmem : (role, d) ∈ s.roleDrfPositions := alLookup_mem h
  have hmin : d.min.name ∈ s.destructorNames := by
    unfold FrameworkMetrics.destructorNames
    simp only [List.mem_append, List.mem_flatMap]
    exact Or.inl (Or.inr ⟨(role, d), hmem, by simp⟩)
  have hmax : d.max.name ∈ s.destructorNames := by
    unfold FrameworkMetrics.destructorNames
    simp only [List.mem_append, List.mem_flatMap]
    exact Or.inl (Or.inr ⟨(role, d), hmem, by simp⟩)
  unfold FrameworkMetrics.destruct
  rw [removeAllF_eq]
  refine ⟨?_, ?_⟩
  · intro hm
    rw [Finset.mem_sdiff, List.mem_toFinset] at hm
    exact hm.2 hmin
  · intro hm
    rw [Finset.mem_sdiff, List.mem_toFinset] at hm
    exact hm.2 hmax

/-! ## Concrete instances used by the closed theorems -/

def fwEx : FrameworkInfo := ⟨"fw", "id-1", ["r1", "r2"]⟩

def quotaCpu1 : Quota := ⟨⟨[⟨"cpus", ValueType.SCALAR, 1⟩]⟩⟩

def quotaMem2 : Quota := ⟨⟨[⟨"mem", ValueType.SCALAR, 2⟩]⟩⟩

def quotaEx : Quota :=
  ⟨⟨[⟨"cpus", ValueType.SCALAR, 4⟩, ⟨"mem", ValueType.SCALAR, 512⟩]⟩⟩

def quotaBad : Quota := ⟨⟨[⟨"ports", ValueType.RANGES, 0⟩]⟩⟩

/-- A quota set, removed, and set again for the same role: every `CHECK`
passes, yet the first guarantee gauge is orphaned. -/
def mopsLeak : List MOp :=
  [MOp.setQuota "roleA" quotaCpu1,
   MOp.removeQuota "roleA",
   MOp.setQuota "roleA" quotaMem2]

/-- An allocator registry with a live quota entry for `roleA` and a live
offer-filter entry for `roleB`. -/
def sPre : Metrics :=
  { resources_total := []
    resources_offered_or_allocated := []
    quota_allocated := [("roleA", [])]
    quota_guarantee := []
    offer_filters_active := [("roleB", offerFilterName "roleB")]
    catalog := ∅ }

/-- A framework registry with no dynamically-keyed entries. -/
def tPre : FrameworkMetrics := ⟨fwEx, [], [], ∅⟩

/-- A framework registry with a live DRF position pair for `r1`. -/
def tDrf : FrameworkMetrics :=
  ⟨fwEx, [("r1", ⟨⟨"p/min", 3⟩, ⟨"p/max", 7⟩⟩)], [], {"p/min", "p/max"}⟩

/-- The result of `addRole "x"` on a freshly constructed allocator registry. -/
def sAddX : Metrics :=
  { Metrics.construct ∅ with
    offer_filters_active := [("x", offerFilterName "x")]
    catalog := metricsAdd (Metrics.construct ∅).catalog (offerFilterName "x") }

/-! ## The claims -/

/-- C1: the claim says `removeQuota(role)` also tears down the guarantee
gauges `setQuota` registered for the role.  Evaluating the code at the
failing input `setQuota("roleA", {cpus: 1})` followed by
`removeQuota("roleA")` shows the opposite: the allocated-side gauge is gone
but the guarantee gauge is still registered until registry destruction. -/
theorem c1_removeQuota_leaves_guarantee_registered :
    (((Metrics.construct ∅).setQuota "roleA" quotaCpu1).bind
        (fun s => s.removeQuota "roleA")).map
      (fun s => (decide (quotaGuaranteeName "roleA" "cpus" ∈ s.catalog),
        decide (quotaAllocatedName "roleA" "cpus" ∈ s.catalog))) =
      some (true, false) := by
  decide

/-- C2: the claim says the destructor leaves zero residual registrations
after any precondition-respecting operation sequence.  Running the valid
sequence `setQuota(roleA, {cpus:1}); removeQuota(roleA);
setQuota(roleA, {mem:2})` and then the destructor leaves the orphaned first
guarantee gauge registered: the destructor result is not empty and still
contains `allocator/mesos/quota/roles/roleA/resources/cpus/guarantee`. -/
theorem c2_destructor_leaves_residual :
    (runMOps (Metrics.construct ∅) mopsLeak).map
      (fun s => (decide (Metrics.destruct s = ∅),
        decide (quotaGuaranteeName "roleA" "cpus" ∈ Metrics.destruct s))) =
      some (false, true) := by
  decide

/-- C3 counterexample: after the valid sequence `[addRole "a/b"]` the
registered catalog differs from the claim's predicted set built from
normalized role names — `addRole` uses the raw role in the gauge name, so
the claim as stated is false. -/
theorem c3_normalized_names_counterexample :
    (runRoleOps (Metrics.construct ∅) [RoleOp.add "a/b"]).map Metrics.catalog ≠
      some ((Metrics.construct ∅).catalog ∪
        ((rolesAfter [RoleOp.add "a/b"] []).map offerFilterNameSpec).toFinset) := by
  decide

/-- C3 amended: for every precondition-respecting `addRole`/`removeRole`
sequence, the registered catalog equals the construction-time catalog plus
exactly one offer-filter gauge name per currently added role, where the name
is built from the raw (unnormalized) role, and the registry's key set equals
the set of currently added roles. -/
theorem c3_offer_filter_names_raw :
    ∀ (ops : List RoleOp) (s' : Metrics),
      runRoleOps (Metrics.construct ∅) ops = some s' →
      s'.catalog = (Metrics.construct ∅).catalog ∪
        ((rolesAfter ops []).map offerFilterName).toFinset ∧
      ∀ r : String, r ∈ s'.offer_filters_active.map Prod.fst ↔
        r ∈ rolesAfter ops [] := by
  intro ops s' h
  have inv := runRoleOps_inv ops _ [] s' offerInv_construct h
  refine ⟨?_, inv.keys⟩
  rw [inv.cat]
  congr 1
  ext m
  simp only [List.mem_toFinset, List.mem_map]
  constructor
  · rintro ⟨p, hp, rfl⟩
    have hk : p.1 ∈ rolesAfter ops [] :=
      (inv.keys p.1).mp (List.mem_map.mpr ⟨p, hp, rfl⟩)
    exact ⟨p.1, hk, (inv.vals p hp).symm⟩
  · rintro ⟨r, hr, rfl⟩
    obtain ⟨p, hp, hfst⟩ := List.mem_map.mp ((inv.keys r).mpr hr)
    refine ⟨p, hp, ?_⟩
    rw [inv.vals p hp, hfst]

/-- C3 witness: the amended theorem applied to the concrete valid sequence
`[addRole "x"]`. -/
theorem c3_offer_filter_names_raw_witness :
    (sAddX.catalog = (Metrics.construct ∅).catalog ∪
      ((rolesAfter [RoleOp.add "x"] []).map offerFilterName).toFinset) ∧
    ∀ r : String, r ∈ sAddX.offer_filters_active.map Prod.fst ↔
      r ∈ rolesAfter [RoleOp.add "x"] [] :=
  c3_offer_filter_names_raw [RoleOp.add "x"] sAddX (by decide)

/-- C4: for one role, any nonempty interleaving of `reviveRole` and
`suppressRole` starting from a state with no suppression gauge for the role
registers the gauge exactly once (a single catalog insertion, a single map
entry), and the stored value afterwards is 1 if the last call was suppress
and 0 if it was revive. -/
theorem c4_suppression_gauge_once_last_call_wins :
    ∀ (s : FrameworkMetrics) (role : String) (op : RSOp) (ops : List RSOp),
      alContains s.suppressed role = false →
      runRS s role (op :: ops) = { s with
        suppressed := (role,
          ⟨suppressedGaugeName s.frameworkInfo role, rsVal (lastRS op ops)⟩) ::
          s.suppressed
        catalog := metricsAdd s.catalog
          (suppressedGaugeName s.frameworkInfo role) } := by
  intro s role op ops h
  show runRS (applyRS s role op) role ops = _
  have happ : applyRS s role op = { s with
      suppressed := (role,
        ⟨suppressedGaugeName s.frameworkInfo role, rsVal op⟩) :: s.suppressed
      catalog := metricsAdd s.catalog
        (suppressedGaugeName s.frameworkInfo role) } := by
    cases op with
    | revive => exact reviveRole_fresh h
    | suppress => exact suppressRole_fresh h
  rw [happ, runRS_cons_state ops _ role _ (rsVal op) s.suppressed rfl h]
  cases s
  simp [foldl_rsVal_eq_lastRS]

/-- C4 witness: suppress, revive, suppress for a fresh role on an empty
framework registry ends with one gauge stored at 1. -/
theorem c4_suppression_witness :
    runRS tPre "r1" [RSOp.suppress, RSOp.revive, RSOp.suppress] =
      { tPre with
        suppressed := [("r1",
          ⟨suppressedGaugeName tPre.frameworkInfo "r1",
            rsVal (lastRS RSOp.suppress [RSOp.revive, RSOp.suppress])⟩)]
        catalog := metricsAdd tPre.catalog
          (suppressedGaugeName tPre.frameworkInfo "r1") } :=
  c4_suppression_gauge_once_last_call_wins tPre "r1" RSOp.suppress
    [RSOp.revive, RSOp.suppress] rfl

/-- C5: every stated precondition violation — duplicate `setQuota`,
`removeQuota` with no registration, duplicate `addRole`, `removeRole` with
no entry, `removeSuppressedRole` with no gauge — hits a fatal `CHECK`
(modelled as `none`): there is no resulting state, so the call is neither a
no-op nor auto-corrected. -/
theorem c5_precondition_violations_fatal :
    ∀ (s : Metrics) (t : FrameworkMetrics) (role : String) (q : Quota),
      (alContains s.quota_allocated role = true → s.setQuota role q = none) ∧
      (alContains s.quota_allocated role = false →
        s.removeQuota role = none) ∧
      (alContains s.offer_filters_active role = true →
        s.addRole role = none) ∧
      (alContains s.offer_filters_active role = false →
        s.removeRole role = none) ∧
      (alContains t.suppressed role = false →
        t.removeSuppressedRole role = none) := by
  intro s t role q
  refine ⟨?_, ?_, ?_, ?_, ?_⟩
  · intro h; simp [Metrics.setQuota, h]
  · intro h; simp [Metrics.removeQuota, alContains_false_lookup h]
  · intro h; simp [Metrics.addRole, h]
  · intro h; simp [Metrics.removeRole, alContains_false_lookup h]
  · intro h
    simp [FrameworkMetrics.removeSuppressedRole, alContains_false_lookup h]

/-- C5 witness: the five violations at concrete registries. -/
theorem c5_precondition_witness :
    (Metrics.setQuota sPre "roleA" quotaCpu1 = none) ∧
    (Metrics.removeQuota sPre "roleC" = none) ∧
    (Metrics.addRole sPre "roleB" = none) ∧
    (Metrics.removeRole sPre "roleC" = none) ∧
    (FrameworkMetrics.removeSuppressedRole tPre "r1" = none) :=
  ⟨(c5_precondition_violations_fatal sPre tPre "roleA" quotaCpu1).1
      (by decide),
   (c5_precondition_violations_fatal sPre tPre "roleC" quotaCpu1).2.1
      (by decide),
   (c5_precondition_violations_fatal sPre tPre "roleB" quotaCpu1).2.2.1
      (by decide),
   (c5_precondition_violations_fatal sPre tPre "roleC" quotaCpu1).2.2.2.1
      (by decide),
   (c5_precondition_violations_fatal sPre tPre "r1" quotaCpu1).2.2.2.2
      (by decide)⟩

/-- C6: for a fresh role and an all-scalar quota with distinct resource
names, `setQuota` succeeds and registers exactly the guarantee/allocated
gauge pair of every guaranteed resource entry (two fresh names per entry, so
the catalog grows by twice the number of entries), and the stored guarantee
gauge of each entry snapshots that entry's scalar value: reading it returns
exactly that value whatever the allocator state is later. -/
theorem c6_setQuota_registers_pair_and_snapshots :
    ∀ (s : Metrics) (role : String) (q : Quota),
      alContains s.quota_allocated role = false →
      (∀ r ∈ q.info.guarantee, r.type = ValueType.SCALAR) →
      (q.info.guarantee.map Resource.name).Nodup →
      (∀ n ∈ quotaPairNames role q.info.guarantee, n ∉ s.catalog) →
      ∃ s', s.setQuota role q = some s' ∧
        s'.catalog = s.catalog ∪
          (quotaPairNames role q.info.guarantee).toFinset ∧
        s'.catalog.card = s.catalog.card + 2 * q.info.guarantee.length ∧
        ∀ r ∈ q.info.guarantee,
          (alLookup s'.quota_guarantee role).bind
              (fun m => alLookup m r.name) =
            some ⟨quotaGuaranteeName role r.name, r.scalarValue⟩ ∧
          ∀ alloc : AllocatorState,
            GuaranteeGauge.read
              ⟨quotaGuaranteeName role r.name, r.scalarValue⟩ alloc =
              r.scalarValue := by
  intro s role q hfresh hscalar hnd hfreshN
  obtain ⟨⟨a', g', c'⟩, hloop⟩ :=
    setQuotaLoop_some role q.info.guarantee [] [] s.catalog hscalar
  have hcat' : c' = s.catalog ∪
      (quotaPairNames role q.info.guarantee).toFinset := by
    have hm := (setQuotaLoop_sound role _ _ _ _ _ _ _ hloop).2
    ext m
    rw [hm m, Finset.mem_union, List.mem_toFinset, mem_quotaPairNames]
  have hdisj : Disjoint s.catalog
      (quotaPairNames role q.info.guarantee).toFinset := by
    rw [Finset.disjoint_right]
    intro n hn
    exact hfreshN n (List.mem_toFinset.mp hn)
  refine ⟨{ s with
      quota_allocated := alPut s.quota_allocated role a'
      quota_guarantee := alPut s.quota_guarantee role g'
      catalog := c' }, ?_, ?_, ?_, ?_⟩
  · simp [Metrics.setQuota, hfresh, hloop]
  · exact hcat'
  · show c'.card = _
    rw [hcat', Finset.card_union_of_disjoint hdisj,
      List.toFinset_card_of_nodup (quotaPairNames_nodup role _ hnd),
      quotaPairNames_length]
  · intro r hr
    refine ⟨?_, fun alloc => rfl⟩
    show (alLookup (alPut s.quota_guarantee role g') role).bind _ = _
    rw [alLookup_alPut_self]
    show alLookup g' r.name = _
    exact setQuotaLoop_lookup role _ _ _ _ _ _ _ hloop hnd r hr

/-- C6 witness: `setQuota("roleA", {cpus: 4, mem: 512})` on a freshly
constructed registry. -/
theorem c6_setQuota_witness :
    ∃ s', (Metrics.construct ∅).setQuota "roleA" quotaEx = some s' ∧
      s'.catalog = (Metrics.construct ∅).catalog ∪
        (quotaPairNames "roleA" quotaEx.info.guarantee).toFinset ∧
      s'.catalog.card = (Metrics.construct ∅).catalog.card +
        2 * quotaEx.info.guarantee.length ∧
      ∀ r ∈ quotaEx.info.guarantee,
        (alLookup s'.quota_guarantee "roleA").bind
            (fun m => alLookup m r.name) =
          some ⟨quotaGuaranteeName "roleA" r.name, r.scalarValue⟩ ∧
        ∀ alloc : AllocatorState,
          GuaranteeGauge.read
            ⟨quotaGuaranteeName "roleA" r.name, r.scalarValue⟩ alloc =
            r.scalarValue :=
  c6_setQuota_registers_pair_and_snapshots (Metrics.construct ∅) "roleA"
    quotaEx rfl (by decide) (by decide) (by decide)

/-- C7: constructing a framework registry registers the six fixed
filtered-resource counters and, through the revive path, exactly one
suppression gauge per distinct declared role, each stored at 0; the DRF
position key space is empty, so no other dynamically-keyed gauge exists. -/
theorem c7_framework_construction :
    ∀ (fw : FrameworkInfo) (c : Catalog),
      FrameworkMetrics.construct fw c =
        { frameworkInfo := fw
          roleDrfPositions := []
          suppressed := ((getRoles fw).map (fun r =>
            (r, (⟨suppressedGaugeName fw r, 0⟩ : PushGauge)))).reverse
          catalog := c ∪ (frameworkFixedNames fw).toFinset ∪
            ((getRoles fw).map (suppressedGaugeName fw)).toFinset } := by
  intro fw c
  unfold FrameworkMetrics.construct
  rw [foldl_revive_fresh (getRoles fw)
    ⟨fw, [], [], addAllF c (frameworkFixedNames fw)⟩
    (List.nodup_dedup _) (fun r _ => rfl)]
  simp [addAllF_eq]

/-- C8: `setDrfPositions(role, (min, max))` creates and registers the
min/max push-gauge pair together exactly when the role has no pair yet; in
every case the stored pair afterwards holds the given components; and the
destructor removes both names of a live pair, so the two gauges are never
registered or unregistered separately. -/
theorem c8_drf_pair_lifecycle :
    ∀ (s : FrameworkMetrics) (role : String) (mm : Nat × Nat),
      (alContains s.roleDrfPositions role = false →
        s.setDrfPositions role mm = { s with
          roleDrfPositions := (role,
            (⟨⟨drfPositionBase s.frameworkInfo role ++ "min", (mm.1 : Rat)⟩,
              ⟨drfPositionBase s.frameworkInfo role ++ "max",
                (mm.2 : Rat)⟩⟩ : DrfPositions)) :: s.roleDrfPositions
          catalog := metricsAdd
            (metricsAdd s.catalog
              (drfPositionBase s.frameworkInfo role ++ "min"))
            (drfPositionBase s.frameworkInfo role ++ "max") }) ∧
      (∀ d, alLookup s.roleDrfPositions role = some d →
        (s.setDrfPositions role mm).catalog = s.catalog ∧
        alLookup (s.setDrfPositions role mm).roleDrfPositions role =
          some ⟨⟨d.min.name, (mm.1 : Rat)⟩, ⟨d.max.name, (mm.2 : Rat)⟩⟩) ∧
      (∀ d, alLookup s.roleDrfPositions role = some d →
        d.min.name ∉ s.destruct ∧ d.max.name ∉ s.destruct) := by
  intro s role mm
  refine ⟨fun h => setDrfPositions_fresh h, ?_,
    fun d hd => drf_pair_removed_in_destruct hd⟩
  intro d hd
  have hc : alContains s.roleDrfPositions role = true := by
    simp [alContains, hd]
  rw [setDrfPositions_present hc]
  refine ⟨rfl, ?_⟩
  have hupd : alLookup (alUpdate s.roleDrfPositions role
      (fun d => (⟨⟨d.min.name, (mm.1 : Rat)⟩,
        ⟨d.max.name, (mm.2 : Rat)⟩⟩ : DrfPositions))) role =
      some ⟨⟨d.min.name, (mm.1 : Rat)⟩, ⟨d.max.name, (mm.2 : Rat)⟩⟩ := by
    rw [alLookup_alUpdate_self, hd]
    rfl
  exact hupd

/-- C8 witness: a fresh pair for `r1` on the empty registry, then an update
and the destructor fact on a registry with a live pair. -/
theorem c8_drf_pair_witness :
    (tPre.setDrfPositions "r1" (2, 5) = { tPre with
      roleDrfPositions := [("r1",
        (⟨⟨drfPositionBase tPre.frameworkInfo "r1" ++ "min",
            (((2, 5) : Nat × Nat).1 : Rat)⟩,
          ⟨drfPositionBase tPre.frameworkInfo "r1" ++ "max",
            (((2, 5) : Nat × Nat).2 : Rat)⟩⟩ : DrfPositions))]
      catalog := metricsAdd
        (metricsAdd tPre.catalog
          (drfPositionBase tPre.frameworkInfo "r1" ++ "min"))
        (drfPositionBase tPre.frameworkInfo "r1" ++ "max") }) ∧
    ((tDrf.setDrfPositions "r1" (4, 6)).catalog = tDrf.catalog ∧
      alLookup (tDrf.setDrfPositions "r1" (4, 6)).roleDrfPositions "r1" =
        some ⟨⟨"p/min", (((4, 6) : Nat × Nat).1 : Rat)⟩,
          ⟨"p/max", (((4, 6) : Nat × Nat).2 : Rat)⟩⟩) ∧
    ("p/min" ∉ tDrf.destruct ∧ "p/max" ∉ tDrf.destruct) :=
  ⟨(c8_drf_pair_lifecycle tPre "r1" (2, 5)).1 (by decide),
   (c8_drf_pair_lifecycle tDrf "r1" (4, 6)).2.1
      ⟨⟨"p/min", 3⟩, ⟨"p/max", 7⟩⟩ (by decide),
   (c8_drf_pair_lifecycle tDrf "r1" (4, 6)).2.2
      ⟨⟨"p/min", 3⟩, ⟨"p/max", 7⟩⟩ (by decide)⟩

/-- C9: `setQuota` requires every guarantee entry to be scalar: with any
non-scalar entry the `CHECK_EQ` is a fatal failure (no resulting state), and
under the all-scalar precondition the call succeeds, so no gauge is ever
derived from a non-scalar value. -/
theorem c9_setQuota_scalar_guard :
    ∀ (s : Metrics) (role : String) (q : Quota),
      alContains s.quota_allocated role = false →
      ((∃ r ∈ q.info.guarantee, r.type ≠ ValueType.SCALAR) →
        s.setQuota role q = none) ∧
      ((∀ r ∈ q.info.guarantee, r.type = ValueType.SCALAR) →
        ∃ s', s.setQuota role q = some s') := by
  intro s role q h
  constructor
  · intro hbad
    simp [Metrics.setQuota, h, setQuotaLoop_none role _ hbad]
  · intro hgood
    obtain ⟨⟨a', g', c'⟩, hloop⟩ :=
      setQuotaLoop_some role q.info.guarantee [] [] s.catalog hgood
    refine ⟨{ s with
        quota_allocated := alPut s.quota_allocated role a'
        quota_guarantee := alPut s.quota_guarantee role g'
        catalog := c' }, ?_⟩
    simp [Metrics.setQuota, h, hloop]

/-- C9 witness: a ranges-typed guarantee entry is fatal; an all-scalar one
succeeds. -/
theorem c9_setQuota_scalar_witness :
    ((Metrics.construct ∅).setQuota "roleA" quotaBad = none) ∧
    ∃ s', (Metrics.construct ∅).setQuota "roleA" quotaCpu1 = some s' :=
  ⟨(c9_setQuota_scalar_guard (Metrics.construct ∅) "roleA" quotaBad
      rfl).1 (by decide),
   (c9_setQuota_scalar_guard (Metrics.construct ∅) "roleA" quotaCpu1
      rfl).2 (by decide)⟩

/-- C10: `setQuota` with an empty guarantee registers no gauge but still
records the role in `quota_allocated`, so a subsequent `removeQuota`
satisfies its precondition and succeeds while removing nothing from the
catalog and restoring the allocated key space. -/
theorem c10_empty_guarantee_quota :
    ∀ (s : Metrics) (role : String),
      alContains s.quota_allocated role = false →
      ∃ s', s.setQuota role ⟨⟨[]⟩⟩ = some s' ∧
        s'.catalog = s.catalog ∧
        alContains s'.quota_allocated role = true ∧
        ∃ s'', s'.removeQuota role = some s'' ∧
          s''.catalog = s'.catalog ∧
          s''.quota_allocated = s.quota_allocated := by
  intro s role h
  have hput : alPut s.quota_allocated role [] =
      (role, ([] : List (String × String))) :: s.quota_allocated := by
    rw [alPut, alErase_of_not_contains h]
  have herase : alErase
      (alPut s.quota_allocated role ([] : List (String × String))) role =
      s.quota_allocated := by
    rw [hput]
    show alErase ((role, []) :: s.quota_allocated) role = _
    simp [alErase, alErase_of_not_contains h]
  refine ⟨{ s with
      quota_allocated := alPut s.quota_allocated role []
      quota_guarantee := alPut s.quota_guarantee role [] }, ?_, rfl, ?_,
    { s with quota_guarantee := alPut s.quota_guarantee role [] }, ?_, rfl,
    rfl⟩
  · simp [Metrics.setQuota, h, setQuotaLoop]
  · show alContains (alPut s.quota_allocated role []) role = true
    simp [alContains, alLookup_alPut_self]
  · show Metrics.removeQuota _ role = _
    simp [Metrics.removeQuota, alLookup_alPut_self, herase, alValues,
      removeAllF]

/-- C10 witness: the empty-guarantee round trip for a fresh role on a
freshly constructed registry. -/
theorem c10_empty_guarantee_witness :
    ∃ s', (Metrics.construct ∅).setQuota "roleZ" ⟨⟨[]⟩⟩ = some s' ∧
      s'.catalog = (Metrics.construct ∅).catalog ∧
      alContains s'.quota_allocated "roleZ" = true ∧
      ∃ s'', s'.removeQuota "roleZ" = some s'' ∧
        s''.catalog = s'.catalog ∧
        s''.quota_allocated = (Metrics.construct ∅).quota_allocated :=
  c10_empty_guarantee_quota (Metrics.construct ∅) "roleZ" rfl

end MesosAllocatorMetrics
